import Mathlib

/-!
# Tiling, panning and tile scheduling of the image panel

A shallow embedding of `src/ImagePanel.cpp`: the free functions `GetCoverage`,
`clamp` and `ClampPosition`, and the member functions `QueueRect`, `OnPaint`
(its tile loop), `ClampPosition` and `SetScale` of `wxImagePanel`.

Conventions.

* C++ `int` is modelled by `Int`; the development is about executions in which
  no signed overflow occurs (overflow is undefined behaviour in C++).
* `int / int` is truncating division, `Int.tdiv`.
* The toolkit value types `wxPoint`, `wxSize`, `wxRect` and the members used by
  the source (`GetLeft`, `GetRight`, `Intersect`, `Contains`, `Inflate`, ...)
  follow the wxWidgets implementation in `wx/gdicmn.h` / `gdicmn.cpp`.
-/

namespace ImagePanel

/-! ## Toolkit value types -/

/-- The C++ quotient of two `int`s: truncated toward zero. -/
def cdiv (a b : Int) : Int := Int.tdiv a b

/-- A point with integer coordinates (`wxPoint`). -/
structure wxPoint where
  x : Int
  y : Int
deriving DecidableEq

/-- A size with integer components (`wxSize`). -/
structure wxSize where
  x : Int
  y : Int
deriving DecidableEq

/-- An axis-aligned rectangle (`wxRect`): top-left corner and size. -/
structure wxRect where
  x : Int
  y : Int
  width : Int
  height : Int
deriving DecidableEq

namespace wxSize

/-- Componentwise difference, `operator-(wxSize, wxSize)`. -/
def sub (a b : wxSize) : wxSize := ⟨a.x - b.x, a.y - b.y⟩

end wxSize

namespace wxRect

/-- Construction from a corner and a size, `wxRect(const wxPoint&, const wxSize&)`. -/
def ofPosSize (p : wxPoint) (s : wxSize) : wxRect := ⟨p.x, p.y, s.x, s.y⟩

/-- The corner of the rectangle, `GetPosition()`. -/
def GetPosition (r : wxRect) : wxPoint := ⟨r.x, r.y⟩

/-- The size of the rectangle, `GetSize()`. -/
def GetSize (r : wxRect) : wxSize := ⟨r.width, r.height⟩

/-- The leftmost pixel column, `GetLeft()`. -/
def GetLeft (r : wxRect) : Int := r.x

/-- The topmost pixel row, `GetTop()`. -/
def GetTop (r : wxRect) : Int := r.y

/-- The rightmost pixel column, `GetRight()`, which is `x + width - 1`. -/
def GetRight (r : wxRect) : Int := r.x + r.width - 1

/-- The bottom pixel row, `GetBottom()`, which is `y + height - 1`. -/
def GetBottom (r : wxRect) : Int := r.y + r.height - 1

/-- The intersection `r.Intersect(rect)`: the edges are clipped to those of
`rect`, and when the result has no pixel its width and height are both set to
zero while the corner keeps the clipped coordinates. -/
def Intersect (r rect : wxRect) : wxRect :=
  let x2 := r.GetRight
  let y2 := r.GetBottom
  let x := if r.x < rect.x then rect.x else r.x
  let y := if r.y < rect.y then rect.y else r.y
  let x2 := if x2 > rect.GetRight then rect.GetRight else x2
  let y2 := if y2 > rect.GetBottom then rect.GetBottom else y2
  let width := x2 - x + 1
  let height := y2 - y + 1
  if width ≤ 0 ∨ height ≤ 0 then ⟨x, y, 0, 0⟩ else ⟨x, y, width, height⟩

/-- The pixel test `r.Contains(p)`. -/
def Contains (r : wxRect) (p : wxPoint) : Bool :=
  decide (p.x ≥ r.x) && decide (p.y ≥ r.y) &&
    decide (p.y - r.y < r.height) && decide (p.x - r.x < r.width)

/-- The test `r.Intersects(rect)`: the intersection has a non-zero width. -/
def Intersects (r rect : wxRect) : Bool := decide ((r.Intersect rect).width ≠ 0)

/-- The rectangle grown by `dx` on the left and right and by `dy` on the top
and bottom, `Inflate(dx, dy)`; a shrink larger than the rectangle collapses
that axis to zero size around its middle. -/
def Inflate (r : wxRect) (dx dy : Int) : wxRect :=
  let xw : Int × Int :=
    if -2 * dx > r.width then (r.x + cdiv r.width 2, 0) else (r.x - dx, r.width + 2 * dx)
  let yh : Int × Int :=
    if -2 * dy > r.height then (r.y + cdiv r.height 2, 0) else (r.y - dy, r.height + 2 * dy)
  ⟨xw.1, yh.1, xw.2, yh.2⟩

end wxRect

/-! ## `GetCoverage` -/

/-- The successive values of `i` in `for( int i = lo; i <= hi; ++i )`. -/
def loopRange (lo hi : Int) : List Int :=
  (List.range (hi + 1 - lo).toNat).map fun (k : Nat) => lo + (k : Int)

/-- The grid tiles under a viewport (`GetCoverage`): the viewport is clipped to
the canvas, its edges are divided by the grid size, and for every row and
column in the resulting inclusive range the grid cell clipped to the canvas is
appended, row by row. -/
def GetCoverage (viewport canvas : wxRect) (gridSize : wxSize) : List wxRect :=
  let clippedViewport := canvas.Intersect viewport
  let top := cdiv clippedViewport.GetTop gridSize.y
  let bottom := cdiv clippedViewport.GetBottom gridSize.y
  let left := cdiv clippedViewport.GetLeft gridSize.x
  let right := cdiv clippedViewport.GetRight gridSize.x
  (loopRange top bottom).flatMap fun y =>
    (loopRange left right).map fun x =>
      canvas.Intersect ⟨x * gridSize.x, y * gridSize.y, gridSize.x, gridSize.y⟩

/-! ## `clamp` and `ClampPosition` -/

/-- The template `clamp( val, minVal, maxVal )` at type `int`. -/
def clamp (val minVal maxVal : Int) : Int :=
  if val < minVal then minVal
  else if val > maxVal then maxVal
  else val

/-- The free function `ClampPosition( viewport, extent )`. -/
def ClampPosition (viewport extent : wxRect) : wxPoint :=
  let delta : wxSize := viewport.GetSize.sub extent.GetSize
  let newTopLeft : wxPoint := viewport.GetPosition
  let newX :=
    if delta.x < 0 then
      clamp newTopLeft.x extent.GetPosition.x
        ((extent.GetPosition.x + extent.GetSize.x) - viewport.GetSize.x)
    else
      extent.GetPosition.x - cdiv delta.x 2
  let newY :=
    if delta.y < 0 then
      clamp newTopLeft.y extent.GetPosition.y
        ((extent.GetPosition.y + extent.GetSize.y) - viewport.GetSize.y)
    else
      extent.GetPosition.y - cdiv delta.y 2
  ⟨newX, newY⟩

/-! ## The panel: tile keys, bitmap cache, image factory -/

/-- A rendered tile bitmap (`wxBitmap`), identified by a handle. -/
structure wxBitmap where
  handle : Nat
deriving DecidableEq

/-- Modelled from the spec: the tile key `ExtRect` declared in `ImagePanel.h`
(absent), the composite (FrameIndex, QualityTier, TileRect). The source builds
it as `ExtRect( mCurFrame, 0, srcRect )` for the Nice tier and
`ExtRect( mCurFrame, -1, srcRect )` for the Quick tier and reads the rectangle
with `get<2>`. -/
structure ExtRect where
  frame : Nat
  quality : Int
  rect : wxRect
deriving DecidableEq

/-- Modelled from the spec: the bounded tile cache `LruCache` declared in a
header that is absent, a key to tile store with least-recently-used eviction.
The entries are kept most recently used first. -/
structure LruCache where
  capacity : Nat
  entries : List (ExtRect × wxBitmap)
deriving DecidableEq

namespace LruCache

/-- Modelled from the spec: `Get(key)` of the absent `LruCache`, called in the
source as `get( value, key, promote )`. It returns the tile if present, absence
is not an error; with `promote` the entry found is marked most recently used.
The stored tiles are never null: `OnThread` inserts only non-null bitmaps. -/
def get (c : LruCache) (key : ExtRect) (promote : Bool) : Option wxBitmap × LruCache :=
  match c.entries.find? (fun e => decide (e.1 = key)) with
  | none => (none, c)
  | some e =>
    if promote then
      (some e.2, { c with entries := e :: c.entries.filter (fun e' => decide (e'.1 ≠ key)) })
    else
      (some e.2, c)

end LruCache

/-- Modelled from the spec: the tile producer `wxImageFactory` declared in a
header that is absent, seen from the panel as the queue of render jobs handed
to it, in submission order. -/
structure wxImageFactory where
  jobs : List ExtRect
deriving DecidableEq

namespace wxImageFactory

/-- Modelled from the spec: `AddRect` of the absent factory enqueues the key
for background rendering. -/
def AddRect (f : wxImageFactory) (rect : ExtRect) : wxImageFactory :=
  { f with jobs := f.jobs ++ [rect] }

end wxImageFactory

/-- The conversion of a `double` to `int` by truncation toward zero, the C++
cast `int( d )`. -/
def truncToInt (q : ℚ) : Int := if 0 ≤ q then Int.floor q else Int.ceil q

/-- The product `wxSize * double`, converted back to integers by `toInt`. -/
def wxSize.scale (toInt : ℚ → Int) (s : wxSize) (f : ℚ) : wxSize :=
  ⟨toInt ((s.x : ℚ) * f), toInt ((s.y : ℚ) * f)⟩

/-- The state of `wxImagePanel` read or written by `QueueRect`, the tile loop of
`OnPaint`, `ClampPosition` and `SetScale`. `mImage` is the image pointer, of
which only the size is used (`none` is `NULL`); `size` is the window's
`GetSize()`; `animationRunning` is `mAnimationTimer.IsRunning()`. -/
structure wxImagePanel where
  mBitmapCache : LruCache
  mQueuedRects : List ExtRect
  mImageFactory : wxImageFactory
  mCurFrame : Nat
  animationRunning : Bool
  mImage : Option wxSize
  size : wxSize
  mPosition : wxPoint
  mScale : ℚ

/-- A call `dc.DrawBitmap( bitmap, pos )`. -/
structure DrawCall where
  bitmap : wxBitmap
  pos : wxPoint
deriving DecidableEq

namespace wxImagePanel

/-- A call `mBitmapCache.get( bmpPtr, key, promote )` on the panel's cache: the
bitmap pointer obtained (`none` is `NULL`, the call returned `false`) and the
panel with the cache as the call leaves it. -/
def cacheGet (p : wxImagePanel) (key : ExtRect) (promote : Bool) :
    Option wxBitmap × wxImagePanel :=
  ((p.mBitmapCache.get key promote).1,
    { p with mBitmapCache := (p.mBitmapCache.get key promote).2 })

/-- The member `QueueRect( rect )`: nothing happens for a cached key or for a
key already in `mQueuedRects`; otherwise the key is inserted in `mQueuedRects`
and handed to the factory. -/
def QueueRect (p : wxImagePanel) (rect : ExtRect) : wxImagePanel :=
  -- don't queue rects we have cached
  let found := p.cacheGet rect false
  match found.1 with
  | some _ => found.2
  | none =>
    let p := found.2
    -- don't queue rects we've already queued
    if rect ∈ p.mQueuedRects then p
    else
      { p with
        mQueuedRects := p.mQueuedRects.insert rect
        mImageFactory := p.mImageFactory.AddRect rect }

/-- The body of the tile loop of `OnPaint` for one rectangle `srcRect` of
`rectsToDraw`: the updated panel and the bitmap drawn, if any. -/
def OnPaintTile (p : wxImagePanel) (srcRect : wxRect) : wxImagePanel × Option DrawCall :=
  let niceRect : ExtRect := ⟨p.mCurFrame, 0, srcRect⟩
  -- if( !mAnimationTimer.IsRunning() && !mBitmapCache.get( niceBmpPtr, niceRect ) )
  --     QueueRect( niceRect );
  let nice : Option wxBitmap × wxImagePanel :=
    if p.animationRunning then (none, p)
    else
      let found := p.cacheGet niceRect true
      match found.1 with
      | some b => (some b, found.2)
      | none => (none, found.2.QueueRect niceRect)
  let niceBmpPtr := nice.1
  let p := nice.2
  let quickRect : ExtRect := ⟨p.mCurFrame, -1, srcRect⟩
  -- if( NULL == niceBmpPtr && !mBitmapCache.get( quickBmpPtr, quickRect ) )
  --     QueueRect( quickRect );
  let quick : Option wxBitmap × wxImagePanel :=
    match niceBmpPtr with
    | some _ => (none, p)
    | none =>
      let found := p.cacheGet quickRect true
      match found.1 with
      | some b => (some b, found.2)
      | none => (none, found.2.QueueRect quickRect)
  let quickBmpPtr := quick.1
  let p := quick.2
  let toRender : Option wxBitmap :=
    match niceBmpPtr with
    | some b => some b
    | none =>
      match quickBmpPtr with
      | some b => some b
      | none => none
  match toRender with
  | some b => (p, some ⟨b, srcRect.GetPosition⟩)
  | none => (p, none)

/-- The tile loop of `OnPaint` over the rectangles of the set `rectsToDraw`, in
iteration order: the updated panel and the `DrawBitmap` calls made, in order. -/
def OnPaint (p : wxImagePanel) : List wxRect → wxImagePanel × List DrawCall
  | [] => (p, [])
  | srcRect :: rest =>
    let step := OnPaintTile p srcRect
    let tail := OnPaint step.1 rest
    match step.2 with
    | some d => (tail.1, d :: tail.2)
    | none => (tail.1, tail.2)

/-- The member `ClampPosition( newPos )`: without an image the position is
returned as it is, otherwise it is clamped against the scaled image placed at
the origin. -/
def ClampPosition (toInt : ℚ → Int) (p : wxImagePanel) (newPos : wxPoint) : wxPoint :=
  match p.mImage with
  | none => newPos
  | some imageSize =>
    ImagePanel.ClampPosition (wxRect.ofPosSize newPos p.size)
      (wxRect.ofPosSize ⟨0, 0⟩ (imageSize.scale toInt p.mScale))

end wxImagePanel

/-! ## Vocabulary of the claims about the tile loop -/

namespace wxImagePanel

/-- The bitmap stored in the cache under `key`, if any: the outcome of the
lookup `mBitmapCache.get( bmpPtr, key, false )` made by `QueueRect`. -/
def cachedBitmap (p : wxImagePanel) (key : ExtRect) : Option wxBitmap :=
  (p.mBitmapCache.get key false).1

/-- The key of the Nice tile of `r` for the current frame. -/
def niceKey (p : wxImagePanel) (r : wxRect) : ExtRect := ⟨p.mCurFrame, 0, r⟩

/-- The key of the Quick tile of `r` for the current frame. -/
def quickKey (p : wxImagePanel) (r : wxRect) : ExtRect := ⟨p.mCurFrame, -1, r⟩

/-- The drawing rule in the words of the specification: draw Nice if present,
else Quick if present, else skip. -/
def specDraw (p : wxImagePanel) (r : wxRect) : Option DrawCall :=
  match p.cachedBitmap (p.niceKey r) with
  | some nice => some ⟨nice, r.GetPosition⟩
  | none =>
    match p.cachedBitmap (p.quickKey r) with
    | some quick => some ⟨quick, r.GetPosition⟩
    | none => none

/-- The drawing rule restricted to the Quick tier: draw Quick if present, else
skip. -/
def quickDraw (p : wxImagePanel) (r : wxRect) : Option DrawCall :=
  match p.cachedBitmap (p.quickKey r) with
  | some quick => some ⟨quick, r.GetPosition⟩
  | none => none

/-- The tile loop asks for `key` at rectangle `r`: `key` is the Nice key of `r`,
no animation is running and the Nice tile is not cached; or `key` is the Quick
key of `r`, no Nice bitmap was obtained and the Quick tile is not cached. -/
def wants (p : wxImagePanel) (r : wxRect) (key : ExtRect) : Prop :=
  (key = p.niceKey r ∧ p.animationRunning = false ∧ p.cachedBitmap (p.niceKey r) = none) ∨
  (key = p.quickKey r ∧
    (p.animationRunning = true ∨ p.cachedBitmap (p.niceKey r) = none) ∧
    p.cachedBitmap (p.quickKey r) = none)

/-- Two panel states that the tile loop cannot tell apart by its lookups: same
cached bitmaps, same frame, same animation state. -/
def sameView (p q : wxImagePanel) : Prop :=
  (∀ key, q.cachedBitmap key = p.cachedBitmap key) ∧
  q.mCurFrame = p.mCurFrame ∧ q.animationRunning = p.animationRunning

/-- Between the states `p` and `q` the lookups see the same panel, the keys
newly pending are exactly those satisfying `W`, and each of them that was not
pending before was handed to the factory once, no other key at all. -/
def asksFor (W : ExtRect → Prop) (p q : wxImagePanel) : Prop :=
  sameView p q ∧
  (∀ k, k ∈ q.mQueuedRects ↔ k ∈ p.mQueuedRects ∨ W k) ∧
  (∀ k, (k ∉ p.mQueuedRects ∧ W k →
          q.mImageFactory.jobs.count k = p.mImageFactory.jobs.count k + 1) ∧
        (¬ (k ∉ p.mQueuedRects ∧ W k) →
          q.mImageFactory.jobs.count k = p.mImageFactory.jobs.count k))

end wxImagePanel

/-! ## Sample panel states -/

/-- The tile `(0,0,256,256)`. -/
def tile00 : wxRect := ⟨0, 0, 256, 256⟩

/-- The tile `(256,0,256,256)`. -/
def tile10 : wxRect := ⟨256, 0, 256, 256⟩

/-- A panel on frame 0 of a 1024x1024 image whose cache holds the Nice tile
(bitmap 1) and the Quick tile (bitmap 2) of `tile00` and the Quick tile
(bitmap 3) of `tile10`; nothing is pending; no animation is running. -/
def exampleStill : wxImagePanel where
  mBitmapCache := ⟨1024, [(⟨0, 0, tile00⟩, ⟨1⟩), (⟨0, -1, tile00⟩, ⟨2⟩), (⟨0, -1, tile10⟩, ⟨3⟩)]⟩
  mQueuedRects := []
  mImageFactory := ⟨[]⟩
  mCurFrame := 0
  animationRunning := false
  mImage := some ⟨1024, 1024⟩
  size := ⟨256, 256⟩
  mPosition := ⟨0, 0⟩
  mScale := 1

/-- The panel `exampleStill` while the animation timer is running. -/
def exampleAnimating : wxImagePanel := { exampleStill with animationRunning := true }

theorem contains_iff (r : wxRect) (p : wxPoint) :
    r.Contains p = true ↔
      r.x ≤ p.x ∧ r.y ≤ p.y ∧ p.y - r.y < r.height ∧ p.x - r.x < r.width := by
  simp [wxRect.Contains, and_assoc]

theorem contains_intersect (a b : wxRect) (p : wxPoint) :
    (a.Intersect b).Contains p = true ↔ a.Contains p = true ∧ b.Contains p = true := by
  simp only [contains_iff, wxRect.Intersect, wxRect.GetRight, wxRect.GetBottom]
  split_ifs <;> constructor <;> intro h <;> simp only [] at h ⊢ <;> omega

theorem mem_loopRange (lo hi i : Int) : i ∈ loopRange lo hi ↔ lo ≤ i ∧ i ≤ hi := by
  simp only [loopRange, List.mem_map, List.mem_range]
  constructor
  · rintro ⟨k, hk, rfl⟩
    omega
  · intro h
    exact ⟨(i - lo).toNat, by omega, by omega⟩

theorem loopRange_pairwise (lo hi : Int) : (loopRange lo hi).Pairwise (· ≠ ·) := by
  unfold loopRange
  rw [List.pairwise_map]
  exact (List.nodup_range _).imp (by intro a b hab h; apply hab; omega)

/-- A grid cell contains exactly the pixels whose floor quotients are its indices. -/
theorem cell_contains_iff (gx gy x y : Int) (hx : 0 < gx) (hy : 0 < gy) (p : wxPoint) :
    (wxRect.mk (x * gx) (y * gy) gx gy).Contains p = true ↔ x = p.x / gx ∧ y = p.y / gy := by
  rw [contains_iff]
  have h1 : x ≤ p.x / gx ↔ x * gx ≤ p.x := Int.le_ediv_iff_mul_le hx
  have h2 : p.x / gx < x + 1 ↔ p.x < (x + 1) * gx := Int.ediv_lt_iff_lt_mul hx
  have h3 : y ≤ p.y / gy ↔ y * gy ≤ p.y := Int.le_ediv_iff_mul_le hy
  have h4 : p.y / gy < y + 1 ↔ p.y < (y + 1) * gy := Int.ediv_lt_iff_lt_mul hy
  have e1 : (x + 1) * gx = x * gx + gx := by ring
  have e2 : (y + 1) * gy = y * gy + gy := by ring
  simp only [] 
  rw [e1] at h2
  rw [e2] at h4
  constructor
  · rintro ⟨a, b, c, d⟩
    exact ⟨by omega, by omega⟩
  · rintro ⟨a, b⟩
    refine ⟨?_, ?_, ?_, ?_⟩ <;> omega

theorem mem_GetCoverage (V C : wxRect) (G : wxSize) (r : wxRect) :
    r ∈ GetCoverage V C G ↔
      ∃ y x : Int,
        (cdiv (C.Intersect V).GetTop G.y ≤ y ∧ y ≤ cdiv (C.Intersect V).GetBottom G.y) ∧
        (cdiv (C.Intersect V).GetLeft G.x ≤ x ∧ x ≤ cdiv (C.Intersect V).GetRight G.x) ∧
        r = C.Intersect ⟨x * G.x, y * G.y, G.x, G.y⟩ := by
  simp only [GetCoverage, List.mem_flatMap, List.mem_map, mem_loopRange]
  constructor
  · rintro ⟨y, hy, x, hx, rfl⟩
    exact ⟨y, x, hy, hx, rfl⟩
  · rintro ⟨y, x, hy, hx, rfl⟩
    exact ⟨y, hy, x, hx, rfl⟩

/-- No pixel lies in two entries of the coverage list. -/
theorem GetCoverage_pairwise (V C : wxRect) (G : wxSize) (hx : 0 < G.x) (hy : 0 < G.y) :
    (GetCoverage V C G).Pairwise
      (fun a b => ∀ p, ¬ (a.Contains p = true ∧ b.Contains p = true)) := by
  unfold GetCoverage
  simp only []
  rw [List.pairwise_flatMap]
  constructor
  · intro y _
    rw [List.pairwise_map]
    refine (loopRange_pairwise _ _).imp ?_
    intro x x' hne p ⟨h1, h2⟩
    rw [contains_intersect, cell_contains_iff _ _ _ _ hx hy] at h1 h2
    exact hne (h1.2.1.trans h2.2.1.symm)
  · refine (loopRange_pairwise _ _).imp ?_
    intro y y' hne a ha b hb p ⟨h1, h2⟩
    rw [List.mem_map] at ha hb
    obtain ⟨x, _, rfl⟩ := ha
    obtain ⟨x', _, rfl⟩ := hb
    rw [contains_intersect, cell_contains_iff _ _ _ _ hx hy] at h1 h2
    exact hne (h1.2.2.trans h2.2.2.symm)


/-- Truncating and floor division agree on a non-negative dividend. -/
theorem cdiv_eq_ediv (a g : Int) (ha : 0 ≤ a) (hg : 0 < g) : cdiv a g = a / g :=
  Int.tdiv_eq_ediv ha (le_of_lt hg)

/-- A list whose entries pairwise exclude each other under `q`, and one of
which satisfies `q`, has exactly one entry satisfying `q`. -/
theorem countP_eq_one_of_pairwise {α : Type} (q : α → Bool) (l : List α)
    (hp : l.Pairwise (fun a b => ¬ (q a = true ∧ q b = true)))
    (hex : ∃ a ∈ l, q a = true) : l.countP q = 1 := by
  induction l with
  | nil => simp at hex
  | cons a l ih =>
    rw [List.pairwise_cons] at hp
    by_cases ha : q a = true
    · have hz : l.countP q = 0 := by
        rw [List.countP_eq_zero]
        intro b hb hqb
        exact hp.1 b hb ⟨ha, hqb⟩
      rw [List.countP_cons_of_pos _ _ ha, hz]
    · rw [List.countP_cons_of_neg _ _ ha]
      apply ih hp.2
      obtain ⟨b, hb, hqb⟩ := hex
      rcases List.mem_cons.mp hb with rfl | hb
      · exact absurd hqb ha
      · exact ⟨b, hb, hqb⟩

/-- The shape of a non-empty intersection. -/
theorem intersect_bounds (a b : wxRect) (h : 0 < (a.Intersect b).width) :
    0 < (a.Intersect b).height ∧
    a.x ≤ (a.Intersect b).x ∧ b.x ≤ (a.Intersect b).x ∧
    a.y ≤ (a.Intersect b).y ∧ b.y ≤ (a.Intersect b).y ∧
    (a.Intersect b).GetRight ≤ a.GetRight ∧ (a.Intersect b).GetRight ≤ b.GetRight ∧
    (a.Intersect b).GetBottom ≤ a.GetBottom ∧ (a.Intersect b).GetBottom ≤ b.GetBottom := by
  revert h
  simp only [wxRect.Intersect, wxRect.GetRight, wxRect.GetBottom]
  split_ifs <;> intro h <;> simp only [] at h ⊢ <;> omega

/-- The corner of an intersection is the larger of the two corners. -/
theorem intersect_corner (a b : wxRect) :
    (a.Intersect b).x = max a.x b.x ∧ (a.Intersect b).y = max a.y b.y ∧
    0 ≤ (a.Intersect b).width ∧ 0 ≤ (a.Intersect b).height := by
  simp only [wxRect.Intersect, wxRect.GetRight, wxRect.GetBottom]
  split_ifs <;> simp only [] <;> omega

/-- Every grid column between the columns of the two ends of a non-empty
interval with a non-negative start meets the interval. -/
theorem axis_overlap (g a w x : Int) (hg : 0 < g) (ha : 0 ≤ a) (hw : 0 < w)
    (h1 : cdiv a g ≤ x) (h2 : x ≤ cdiv (a + w - 1) g) :
    ∃ q, (x * g ≤ q ∧ q - x * g < g) ∧ (a ≤ q ∧ q - a < w) := by
  rw [cdiv_eq_ediv a g ha hg] at h1
  rw [cdiv_eq_ediv (a + w - 1) g (by omega) hg] at h2
  have k1 : x * g ≤ a + w - 1 := (Int.le_ediv_iff_mul_le hg).mp h2
  have k2 : a < (x + 1) * g := (Int.ediv_lt_iff_lt_mul hg).mp (by omega)
  have e1 : (x + 1) * g = x * g + g := by ring
  rw [e1] at k2
  refine ⟨max (x * g) a, ?_, ?_⟩ <;> constructor <;> omega

/-- Under a non-negative clipped corner, the grid cell of a pixel of the clipped
viewport is one of the cells visited by the loops. -/
theorem axis_in_range (g a w q : Int) (hg : 0 < g) (ha : 0 ≤ a)
    (h1 : a ≤ q) (h2 : q - a < w) :
    cdiv a g ≤ q / g ∧ q / g ≤ cdiv (a + w - 1) g := by
  rw [cdiv_eq_ediv a g ha hg, cdiv_eq_ediv (a + w - 1) g (by omega) hg]
  exact ⟨Int.ediv_le_ediv hg h1, Int.ediv_le_ediv hg (by omega)⟩

/-- Under a non-negative clipped corner every pixel of the clipped viewport lies
in an entry of the coverage list. -/
theorem GetCoverage_covers (V C : wxRect) (G : wxSize) (hx : 0 < G.x) (hy : 0 < G.y)
    (hl : 0 ≤ (C.Intersect V).GetLeft) (ht : 0 ≤ (C.Intersect V).GetTop)
    (p : wxPoint) (hp : (C.Intersect V).Contains p = true) :
    ∃ r ∈ GetCoverage V C G, r.Contains p = true := by
  have hC : C.Contains p = true := ((contains_intersect C V p).mp hp).1
  rw [contains_iff] at hp
  obtain ⟨p1, p2, p3, p4⟩ := hp
  refine ⟨C.Intersect ⟨(p.x / G.x) * G.x, (p.y / G.y) * G.y, G.x, G.y⟩, ?_, ?_⟩
  · rw [mem_GetCoverage]
    refine ⟨p.y / G.y, p.x / G.x, ?_, ?_, rfl⟩
    · exact axis_in_range G.y _ _ p.y hy ht p2 p3
    · exact axis_in_range G.x _ _ p.x hx hl p1 p4
  · rw [contains_intersect, cell_contains_iff _ _ _ _ hx hy]
    exact ⟨hC, rfl, rfl⟩


/-! ## Claims about `GetCoverage` -/

/-- Claim C1 (as stated, refuted): with the canvas `(-300,-300,600,600)`, the same
viewport and a 256 grid, the pixel `(-300,-300)` of the clipped viewport lies in
no returned rectangle, because the truncating division sends the edge `-300` to
grid index `-1`, whose cell starts at `-256`. -/
theorem C1_gap_at_negative_canvas :
    ((wxRect.mk (-300) (-300) 600 600).Intersect ⟨-300, -300, 600, 600⟩).Contains
        ⟨-300, -300⟩ = true ∧
    (GetCoverage ⟨-300, -300, 600, 600⟩ ⟨-300, -300, 600, 600⟩ ⟨256, 256⟩).countP
        (fun r => r.Contains ⟨-300, -300⟩) = 0 := by
  decide

/-- Claim C1 (amended): for every viewport `V`, canvas `C` and grid size `G` with
positive width and height such that the clipped viewport `C.Intersect(V)` has a
non-negative left and top coordinate, every pixel of `C.Intersect(V)` lies in
exactly one entry of `GetCoverage(V, C, G)`, and no pixel lies in two entries. -/
theorem C1_GetCoverage_tiles_clipped_viewport (V C : wxRect) (G : wxSize)
    (hx : 0 < G.x) (hy : 0 < G.y)
    (hl : 0 ≤ (C.Intersect V).GetLeft) (ht : 0 ≤ (C.Intersect V).GetTop) :
    (∀ p : wxPoint, (C.Intersect V).Contains p = true →
      (GetCoverage V C G).countP (fun r => r.Contains p) = 1) ∧
    (GetCoverage V C G).Pairwise
      (fun a b => ∀ p, ¬ (a.Contains p = true ∧ b.Contains p = true)) := by
  refine ⟨?_, GetCoverage_pairwise V C G hx hy⟩
  intro p hp
  apply countP_eq_one_of_pairwise
  · exact (GetCoverage_pairwise V C G hx hy).imp (fun h => h p)
  · exact GetCoverage_covers V C G hx hy hl ht p hp

/-- Claim C1 (amended), instance: the pixel `(300, 520)` of a viewport hanging over the
top-left corner of a 1000x1000 canvas lies in exactly one returned tile. -/
theorem C1_GetCoverage_tiles_clipped_viewport_witness :
    (0 : Int) < (wxSize.mk 256 256).x ∧
    0 ≤ ((wxRect.mk 0 0 1000 1000).Intersect ⟨-50, -50, 600, 600⟩).GetLeft ∧
    (GetCoverage ⟨-50, -50, 600, 600⟩ ⟨0, 0, 1000, 1000⟩ ⟨256, 256⟩).countP
        (fun r => r.Contains ⟨300, 520⟩) = 1 :=
  ⟨by decide, by decide,
    (C1_GetCoverage_tiles_clipped_viewport ⟨-50, -50, 600, 600⟩ ⟨0, 0, 1000, 1000⟩ ⟨256, 256⟩
      (by decide) (by decide) (by decide) (by decide)).1 ⟨300, 520⟩ (by decide)⟩

/-- Claim C8 (the code at the failing input): the update rectangle
`(-200,-100,100,600)` in the left margin of a centred 400x400 image does not
intersect the canvas `(0,0,400,400)`, yet `GetCoverage` returns the tile
`(0,0,256,256)`; for a viewport beyond the far corner it returns one tile of
size zero. -/
theorem C8_GetCoverage_disjoint_viewport_not_empty :
    (wxRect.mk 0 0 400 400).Intersects ⟨-200, -100, 100, 600⟩ = false ∧
    GetCoverage ⟨-200, -100, 100, 600⟩ ⟨0, 0, 400, 400⟩ ⟨256, 256⟩ = [⟨0, 0, 256, 256⟩] ∧
    (wxRect.mk 0 0 1000 1000).Intersects ⟨1100, 1100, 100, 100⟩ = false ∧
    GetCoverage ⟨1100, 1100, 100, 100⟩ ⟨0, 0, 1000, 1000⟩ ⟨256, 256⟩ = [⟨1024, 1024, 0, 0⟩] := by
  decide

/-- Claim C9 (as stated, refuted): for the inflated viewport `(-50,-50,600,600)` on the
1000x1000 canvas with a 256 grid `GetCoverage` does not return 4 rectangles. -/
theorem C9_inflated_viewport_not_four_tiles :
    (wxRect.mk 0 0 500 500).Inflate 50 50 = ⟨-50, -50, 600, 600⟩ ∧
    (GetCoverage ((wxRect.mk 0 0 500 500).Inflate 50 50) ⟨0, 0, 1000, 1000⟩ ⟨256, 256⟩).length
      ≠ 4 := by
  decide

/-- Claim C9 (amended): for a 1000x1000 canvas at the origin, grid size 256x256
and the viewport `(0,0,500,500)` inflated by 10% of its size, that is by 50
pixels, to `(-50,-50,600,600)`, `GetCoverage` returns exactly 9 rectangles, the
3x3 block of full grid cells with corners at 0, 256 and 512, each aligned to the
256 grid and lying inside `(0,0,1000,1000)`. The viewport `(0,0,500,500)` itself
gives 4. -/
theorem C9_inflated_viewport_nine_tiles :
    (wxSize.mk 500 500).scale truncToInt (1 / 10) = ⟨50, 50⟩ ∧
    (wxRect.mk 0 0 500 500).Inflate 50 50 = ⟨-50, -50, 600, 600⟩ ∧
    GetCoverage ((wxRect.mk 0 0 500 500).Inflate 50 50) ⟨0, 0, 1000, 1000⟩ ⟨256, 256⟩ =
      [⟨0, 0, 256, 256⟩, ⟨256, 0, 256, 256⟩, ⟨512, 0, 256, 256⟩,
       ⟨0, 256, 256, 256⟩, ⟨256, 256, 256, 256⟩, ⟨512, 256, 256, 256⟩,
       ⟨0, 512, 256, 256⟩, ⟨256, 512, 256, 256⟩, ⟨512, 512, 256, 256⟩] ∧
    (GetCoverage ((wxRect.mk 0 0 500 500).Inflate 50 50) ⟨0, 0, 1000, 1000⟩ ⟨256, 256⟩).length
      = 9 ∧
    (∀ r ∈ GetCoverage ((wxRect.mk 0 0 500 500).Inflate 50 50) ⟨0, 0, 1000, 1000⟩ ⟨256, 256⟩,
      r.x % 256 = 0 ∧ r.y % 256 = 0 ∧
      0 ≤ r.GetLeft ∧ 0 ≤ r.GetTop ∧ r.GetRight ≤ 999 ∧ r.GetBottom ≤ 999) ∧
    (GetCoverage ⟨0, 0, 500, 500⟩ ⟨0, 0, 1000, 1000⟩ ⟨256, 256⟩).length = 4 := by
  refine ⟨?_, ?_⟩
  · simp [wxSize.scale, truncToInt]
    norm_num
  · decide

/-- Claim C10: for a canvas at `(0,0)`, a positive grid size and a viewport that
intersects the canvas (so that the canvas has positive size), every rectangle returned by `GetCoverage`
is non-empty, lies inside the canvas, is no larger than the grid size and shares
a pixel with the clipped viewport; no pixel lies in two returned rectangles; and
every pixel of the clipped viewport lies in a returned rectangle. -/
theorem C10_GetCoverage_minimal_exact_cover (V C : wxRect) (G : wxSize)
    (hcx : C.x = 0) (hcy : C.y = 0) (hx : 0 < G.x) (hy : 0 < G.y)
    (hint : C.Intersects V = true) :
    (∀ r ∈ GetCoverage V C G,
      (0 < r.width ∧ 0 < r.height) ∧
      (C.GetLeft ≤ r.GetLeft ∧ C.GetTop ≤ r.GetTop ∧
        r.GetRight ≤ C.GetRight ∧ r.GetBottom ≤ C.GetBottom) ∧
      (r.width ≤ G.x ∧ r.height ≤ G.y) ∧
      ∃ p, r.Contains p = true ∧ (C.Intersect V).Contains p = true) ∧
    (GetCoverage V C G).Pairwise
      (fun a b => ∀ p, ¬ (a.Contains p = true ∧ b.Contains p = true)) ∧
    (∀ p : wxPoint, (C.Intersect V).Contains p = true →
      ∃ r ∈ GetCoverage V C G, r.Contains p = true) := by
  obtain ⟨c1, c2, c3, c4⟩ := intersect_corner C V
  have hw : 0 < (C.Intersect V).width := by
    have : (C.Intersect V).width ≠ 0 := by simpa [wxRect.Intersects] using hint
    omega
  have hh : 0 < (C.Intersect V).height := (intersect_bounds C V hw).1
  have hl : 0 ≤ (C.Intersect V).GetLeft := by
    show 0 ≤ (C.Intersect V).x
    rw [c1, hcx]; exact le_max_left _ _
  have ht : 0 ≤ (C.Intersect V).GetTop := by
    show 0 ≤ (C.Intersect V).y
    rw [c2, hcy]; exact le_max_left _ _
  refine ⟨?_, GetCoverage_pairwise V C G hx hy, GetCoverage_covers V C G hx hy hl ht⟩
  intro r hr
  rw [mem_GetCoverage] at hr
  obtain ⟨y, x, hyr, hxr, rfl⟩ := hr
  obtain ⟨qx, hqx1, hqx2⟩ := axis_overlap G.x _ _ x hx hl hw hxr.1 hxr.2
  obtain ⟨qy, hqy1, hqy2⟩ := axis_overlap G.y _ _ y hy ht hh hyr.1 hyr.2
  have hpV : (C.Intersect V).Contains ⟨qx, qy⟩ = true := by
    rw [contains_iff]
    exact ⟨hqx2.1, hqy2.1, hqy2.2, hqx2.2⟩
  have hpC : C.Contains ⟨qx, qy⟩ = true := ((contains_intersect C V _).mp hpV).1
  have hpT : (C.Intersect ⟨x * G.x, y * G.y, G.x, G.y⟩).Contains ⟨qx, qy⟩ = true := by
    rw [contains_intersect]
    refine ⟨hpC, ?_⟩
    rw [contains_iff]
    exact ⟨hqx1.1, hqy1.1, hqy1.2, hqx1.2⟩
  have hTw : 0 < (C.Intersect ⟨x * G.x, y * G.y, G.x, G.y⟩).width := by
    have := (contains_iff _ _).mp hpT
    simp only [] at this
    omega
  have hb := intersect_bounds C ⟨x * G.x, y * G.y, G.x, G.y⟩ hTw
  simp only [wxRect.GetRight, wxRect.GetBottom, wxRect.GetLeft, wxRect.GetTop] at hb ⊢
  refine ⟨⟨hTw, hb.1⟩, ⟨?_, ?_, ?_, ?_⟩, ⟨?_, ?_⟩, ⟨qx, qy⟩, hpT, hpV⟩ <;> omega

/-- Claim C10, instance: the coordinator's canvas `(0,0,1000,1000)`, the 256 grid and a
viewport with negative corner; the first returned tile is `(0,0,256,256)`. -/
theorem C10_GetCoverage_minimal_exact_cover_witness :
    (wxRect.mk 0 0 1000 1000).Intersects ⟨-50, -50, 600, 600⟩ = true ∧
    ((0 : Int) < 256 ∧ (0 : Int) < 256) ∧
    ∃ r ∈ GetCoverage ⟨-50, -50, 600, 600⟩ ⟨0, 0, 1000, 1000⟩ ⟨256, 256⟩,
      r.Contains ⟨0, 0⟩ = true :=
  ⟨by decide, ⟨by decide, by decide⟩,
    (C10_GetCoverage_minimal_exact_cover ⟨-50, -50, 600, 600⟩ ⟨0, 0, 1000, 1000⟩ ⟨256, 256⟩
      rfl rfl (by decide) (by decide) (by decide)).2.2 ⟨0, 0⟩ (by decide)⟩


/-! ## Claims about `ClampPosition` -/

theorem clamp_bounds (v lo hi : Int) (h : lo ≤ hi) :
    lo ≤ clamp v lo hi ∧ clamp v lo hi ≤ hi := by
  unfold clamp
  split_ifs <;> omega

theorem clamp_of_mem (v lo hi : Int) (h1 : lo ≤ v) (h2 : v ≤ hi) : clamp v lo hi = v := by
  unfold clamp
  split_ifs <;> omega

theorem cdiv_two (d : Int) (h : 0 ≤ d) : cdiv d 2 = d / 2 :=
  Int.tdiv_eq_ediv h (by decide)

/-- Claim C2: `ClampPosition` is idempotent. Clamping the viewport of the same size
moved to the clamped position returns that position again. -/
theorem C2_ClampPosition_idempotent (viewport extent : wxRect) :
    ClampPosition (wxRect.ofPosSize (ClampPosition viewport extent) viewport.GetSize) extent =
      ClampPosition viewport extent := by
  simp only [ClampPosition, wxRect.ofPosSize, wxRect.GetSize, wxRect.GetPosition, wxSize.sub]
  congr 1
  · split_ifs with h
    · obtain ⟨b1, b2⟩ := clamp_bounds viewport.x extent.x
        (extent.x + extent.width - viewport.width) (by omega)
      exact clamp_of_mem _ _ _ b1 b2
    · rfl
  · split_ifs with h
    · obtain ⟨b1, b2⟩ := clamp_bounds viewport.y extent.y
        (extent.y + extent.height - viewport.height) (by omega)
      exact clamp_of_mem _ _ _ b1 b2
    · rfl

/-- Claim C3: on each axis, the window of size `vsize` placed at
`ClampPosition(viewport, extent)` lies inside the extent when the viewport is
smaller than the extent, and otherwise sits at
`extentMin - (viewportSize - extentSize)/2` whatever position `pos` was
requested, so that it contains the extent and the far margin exceeds the near
margin by at most one pixel. -/
theorem C3_ClampPosition_inside_or_centred (pos : wxPoint) (vsize : wxSize) (extent : wxRect) :
    (vsize.x < extent.width →
      extent.x ≤ (ClampPosition (wxRect.ofPosSize pos vsize) extent).x ∧
      (ClampPosition (wxRect.ofPosSize pos vsize) extent).x ≤
        extent.x + extent.width - vsize.x) ∧
    (extent.width ≤ vsize.x →
      (ClampPosition (wxRect.ofPosSize pos vsize) extent).x =
        extent.x - (vsize.x - extent.width) / 2 ∧
      (ClampPosition (wxRect.ofPosSize pos vsize) extent).x ≤ extent.x ∧
      extent.x + extent.width ≤ (ClampPosition (wxRect.ofPosSize pos vsize) extent).x + vsize.x ∧
      extent.x - (ClampPosition (wxRect.ofPosSize pos vsize) extent).x ≤
        ((ClampPosition (wxRect.ofPosSize pos vsize) extent).x + vsize.x) -
          (extent.x + extent.width) ∧
      ((ClampPosition (wxRect.ofPosSize pos vsize) extent).x + vsize.x) -
          (extent.x + extent.width) ≤
        extent.x - (ClampPosition (wxRect.ofPosSize pos vsize) extent).x + 1) ∧
    (vsize.y < extent.height →
      extent.y ≤ (ClampPosition (wxRect.ofPosSize pos vsize) extent).y ∧
      (ClampPosition (wxRect.ofPosSize pos vsize) extent).y ≤
        extent.y + extent.height - vsize.y) ∧
    (extent.height ≤ vsize.y →
      (ClampPosition (wxRect.ofPosSize pos vsize) extent).y =
        extent.y - (vsize.y - extent.height) / 2 ∧
      (ClampPosition (wxRect.ofPosSize pos vsize) extent).y ≤ extent.y ∧
      extent.y + extent.height ≤ (ClampPosition (wxRect.ofPosSize pos vsize) extent).y + vsize.y ∧
      extent.y - (ClampPosition (wxRect.ofPosSize pos vsize) extent).y ≤
        ((ClampPosition (wxRect.ofPosSize pos vsize) extent).y + vsize.y) -
          (extent.y + extent.height) ∧
      ((ClampPosition (wxRect.ofPosSize pos vsize) extent).y + vsize.y) -
          (extent.y + extent.height) ≤
        extent.y - (ClampPosition (wxRect.ofPosSize pos vsize) extent).y + 1) := by
  simp only [ClampPosition, wxRect.ofPosSize, wxRect.GetSize, wxRect.GetPosition, wxSize.sub]
  refine ⟨?_, ?_, ?_, ?_⟩
  · intro h
    rw [if_pos (by omega)]
    exact clamp_bounds _ _ _ (by omega)
  · intro h
    rw [if_neg (by omega), cdiv_two _ (by omega)]
    refine ⟨rfl, ?_, ?_, ?_, ?_⟩ <;> omega
  · intro h
    rw [if_pos (by omega)]
    exact clamp_bounds _ _ _ (by omega)
  · intro h
    rw [if_neg (by omega), cdiv_two _ (by omega)]
    refine ⟨rfl, ?_, ?_, ?_, ?_⟩ <;> omega


/-- Claim C3, instance: a 500x800 window requested at `(700,-20)` over the extent
`(0,0,1000,600)` is kept inside the extent horizontally and centred vertically,
at `y = -100`. -/
theorem C3_ClampPosition_inside_or_centred_witness :
    ((500 : Int) < 1000 ∧ (600 : Int) ≤ 800) ∧
    (0 ≤ (ClampPosition (wxRect.ofPosSize ⟨700, -20⟩ ⟨500, 800⟩) ⟨0, 0, 1000, 600⟩).x ∧
      (ClampPosition (wxRect.ofPosSize ⟨700, -20⟩ ⟨500, 800⟩) ⟨0, 0, 1000, 600⟩).x ≤
        0 + 1000 - 500) ∧
    (ClampPosition (wxRect.ofPosSize ⟨700, -20⟩ ⟨500, 800⟩) ⟨0, 0, 1000, 600⟩).y =
      0 - (800 - 600) / 2 :=
  ⟨by decide,
    (C3_ClampPosition_inside_or_centred ⟨700, -20⟩ ⟨500, 800⟩ ⟨0, 0, 1000, 600⟩).1 (by decide),
    ((C3_ClampPosition_inside_or_centred ⟨700, -20⟩ ⟨500, 800⟩ ⟨0, 0, 1000, 600⟩).2.2.2
      (by decide)).1⟩

/-! ## Lemmas about the cache and `QueueRect` -/

theorem LruCache.get_false_snd (c : LruCache) (k : ExtRect) : (c.get k false).2 = c := by
  unfold LruCache.get
  split <;> simp

theorem LruCache.get_fst_eq (c : LruCache) (k : ExtRect) (b : Bool) :
    (c.get k b).1 = (c.entries.find? (fun e => decide (e.1 = k))).map Prod.snd := by
  unfold LruCache.get
  split
  · next h => rw [h]; rfl
  · next e h => rw [h]; cases b <;> simp

theorem LruCache.get_fst (c : LruCache) (k : ExtRect) (b : Bool) :
    (c.get k b).1 = (c.get k false).1 := by
  rw [LruCache.get_fst_eq, LruCache.get_fst_eq]

theorem find_filter_ne (l : List (ExtRect × wxBitmap)) (k k' : ExtRect) (h : k' ≠ k) :
    (l.filter (fun e => decide (e.1 ≠ k))).find? (fun e => decide (e.1 = k')) =
      l.find? (fun e => decide (e.1 = k')) := by
  induction l with
  | nil => rfl
  | cons a l ih =>
    by_cases ha : a.1 = k
    · have hk' : ¬ a.1 = k' := fun e => h (e.symm.trans ha)
      rw [List.filter_cons_of_neg (by simpa using ha),
        List.find?_cons_of_neg _ (by simpa using hk'), ih]
    · rw [List.filter_cons_of_pos (by simpa using ha)]
      by_cases hk' : a.1 = k'
      · rw [List.find?_cons_of_pos _ (by simpa using hk'),
          List.find?_cons_of_pos _ (by simpa using hk')]
      · rw [List.find?_cons_of_neg _ (by simpa using hk'),
          List.find?_cons_of_neg _ (by simpa using hk'), ih]

theorem LruCache.get_snd_find (c : LruCache) (k k' : ExtRect) (b : Bool) :
    (c.get k b).2.entries.find? (fun e => decide (e.1 = k')) =
      c.entries.find? (fun e => decide (e.1 = k')) := by
  cases b
  · rw [LruCache.get_false_snd]
  · unfold LruCache.get
    cases h : c.entries.find? (fun e => decide (e.1 = k)) with
    | none => rfl
    | some e =>
      have he : e.1 = k := by simpa using List.find?_some h
      simp only [if_true]
      by_cases hk : k' = k
      · subst hk
        rw [List.find?_cons_of_pos _ (by simpa using he), h]
      · have hne : ¬ e.1 = k' := fun e' => hk (e'.symm.trans he)
        rw [List.find?_cons_of_neg _ (by simpa using hne), find_filter_ne _ _ _ hk]

/-- A lookup, promoting or not, does not change what later lookups return. -/
theorem LruCache.get_snd_get (c : LruCache) (k k' : ExtRect) (b : Bool) :
    ((c.get k b).2.get k' false).1 = (c.get k' false).1 := by
  rw [LruCache.get_fst_eq, LruCache.get_fst_eq, LruCache.get_snd_find]


namespace wxImagePanel

theorem sameView_refl (p : wxImagePanel) : sameView p p := ⟨fun _ => rfl, rfl, rfl⟩

theorem sameView_trans {p q s : wxImagePanel} (h1 : sameView p q) (h2 : sameView q s) :
    sameView p s :=
  ⟨fun k => (h2.1 k).trans (h1.1 k), h2.2.1.trans h1.2.1, h2.2.2.trans h1.2.2⟩

theorem cacheGet_fst (p : wxImagePanel) (k : ExtRect) (b : Bool) :
    (p.cacheGet k b).1 = p.cachedBitmap k :=
  LruCache.get_fst _ _ _

theorem cacheGet_false_snd (p : wxImagePanel) (k : ExtRect) : (p.cacheGet k false).2 = p := by
  unfold cacheGet
  rw [LruCache.get_false_snd]

theorem asksFor_cacheGet (p : wxImagePanel) (k : ExtRect) (b : Bool) :
    asksFor (fun _ => False) p (p.cacheGet k b).2 := by
  refine ⟨⟨fun k' => LruCache.get_snd_get _ _ _ _, rfl, rfl⟩, fun k' => ?_, fun k' => ?_⟩
  · simp [cacheGet]
  · simp [cacheGet]

theorem asksFor_QueueRect (p : wxImagePanel) (k : ExtRect) :
    asksFor (fun k' => k' = k ∧ p.cachedBitmap k = none) p (p.QueueRect k) := by
  unfold QueueRect
  simp only [cacheGet_false_snd, cacheGet_fst]
  cases hc : p.cachedBitmap k with
  | some b =>
    refine ⟨sameView_refl p, fun k' => ?_, fun k' => ?_⟩ <;> simp
  | none =>
    by_cases hq : k ∈ p.mQueuedRects
    · simp only [if_pos hq]
      refine ⟨sameView_refl p, fun k' => ?_, fun k' => ?_⟩
      · constructor
        · exact Or.inl
        · rintro (h | ⟨rfl, _⟩)
          · exact h
          · exact hq
      · constructor
        · rintro ⟨h1, rfl, _⟩
          exact absurd hq h1
        · intro _; rfl
    · simp only [if_neg hq]
      refine ⟨⟨fun _ => rfl, rfl, rfl⟩, fun k' => ?_, fun k' => ?_⟩
      · simp only [List.insert_of_not_mem hq, List.mem_cons, and_true]
        exact or_comm
      · simp only [wxImageFactory.AddRect, List.count_append, and_true]
        constructor
        · rintro ⟨_, rfl⟩
          simp
        · intro h
          have hne : ¬ k' = k := by
            intro e
            subst e
            exact h ⟨hq, rfl⟩
          have : List.count k' [k] = 0 := by
            rw [List.count_eq_zero]
            simpa using hne
          omega

theorem asksFor_congr {W W' : ExtRect → Prop} {p q : wxImagePanel}
    (h : asksFor W p q) (hW : ∀ k, W k ↔ W' k) : asksFor W' p q := by
  have e : W = W' := funext fun k => propext (hW k)
  rw [← e]
  exact h

theorem asksFor_trans {W1 W2 : ExtRect → Prop} {p q s : wxImagePanel}
    (h1 : asksFor W1 p q) (h2 : asksFor W2 q s) : asksFor (fun k => W1 k ∨ W2 k) p s := by
  refine ⟨sameView_trans h1.1 h2.1, fun k => ?_, fun k => ?_⟩
  · rw [h2.2.1, h1.2.1, or_assoc]
  · have a := h1.2.2 k
    have b := h2.2.2 k
    have m := h1.2.1 k
    by_cases hp : k ∈ p.mQueuedRects
    · have hq : k ∈ q.mQueuedRects := m.mpr (Or.inl hp)
      constructor
      · intro h; exact absurd hp h.1
      · intro _
        rw [b.2 (fun h => h.1 hq), a.2 (fun h => h.1 hp)]
    · by_cases w1 : W1 k
      · have hq : k ∈ q.mQueuedRects := m.mpr (Or.inr w1)
        constructor
        · intro _
          rw [b.2 (fun h => h.1 hq), a.1 ⟨hp, w1⟩]
        · intro h; exact absurd ⟨hp, Or.inl w1⟩ h
      · have hq : k ∉ q.mQueuedRects := fun h => (m.mp h).elim hp w1
        by_cases w2 : W2 k
        · constructor
          · intro _
            rw [b.1 ⟨hq, w2⟩, a.2 (fun h => w1 h.2)]
          · intro h; exact absurd ⟨hp, Or.inr w2⟩ h
        · constructor
          · rintro ⟨_, h | h⟩
            · exact absurd h w1
            · exact absurd h w2
          · intro _
            rw [b.2 (fun h => w2 h.2), a.2 (fun h => w1 h.2)]

end wxImagePanel


namespace wxImagePanel

/-- The Nice and the Quick key of a rectangle differ. -/
theorem niceKey_ne_quickKey (p q : wxImagePanel) (r r' : wxRect) :
    p.niceKey r ≠ q.quickKey r' := by
  intro h
  have := congrArg ExtRect.quality h
  simp [niceKey, quickKey] at this

theorem wants_of_sameView {p q : wxImagePanel} (h : sameView p q) (r : wxRect) (k : ExtRect) :
    q.wants r k ↔ p.wants r k := by
  unfold wants niceKey quickKey
  rw [h.2.1, h.2.2, h.1, h.1]

/-- One pass of the loop body asks exactly for the keys wanted at `r`. -/
theorem OnPaintTile_asksFor (p : wxImagePanel) (r : wxRect) :
    asksFor (p.wants r) p (p.OnPaintTile r).1 := by
  unfold OnPaintTile
  cases hrun : p.animationRunning
  · -- no animation: the Nice tile is looked up
    have t1 := asksFor_cacheGet p ⟨p.mCurFrame, 0, r⟩ true
    have f1 : (p.cacheGet ⟨p.mCurFrame, 0, r⟩ true).2.mCurFrame = p.mCurFrame := t1.1.2.1
    cases hn : p.cachedBitmap ⟨p.mCurFrame, 0, r⟩ with
    | some b =>
      simp only [cacheGet_fst, hn, Bool.false_eq_true, if_false]
      refine asksFor_congr t1 fun k => ?_
      simp [wants, niceKey, hn, hrun]
    | none =>
      have t2 := asksFor_QueueRect (p.cacheGet ⟨p.mCurFrame, 0, r⟩ true).2 ⟨p.mCurFrame, 0, r⟩
      have t12 := asksFor_trans t1 t2
      have f2 : ((p.cacheGet ⟨p.mCurFrame, 0, r⟩ true).2.QueueRect
          ⟨p.mCurFrame, 0, r⟩).mCurFrame = p.mCurFrame := t12.1.2.1
      have t3 := asksFor_cacheGet ((p.cacheGet ⟨p.mCurFrame, 0, r⟩ true).2.QueueRect
          ⟨p.mCurFrame, 0, r⟩) ⟨p.mCurFrame, -1, r⟩ true
      have c1 : (p.cacheGet ⟨p.mCurFrame, 0, r⟩ true).2.cachedBitmap ⟨p.mCurFrame, 0, r⟩ = none :=
        (t1.1.1 _).trans hn
      have c2 : ((p.cacheGet ⟨p.mCurFrame, 0, r⟩ true).2.QueueRect
          ⟨p.mCurFrame, 0, r⟩).cachedBitmap ⟨p.mCurFrame, -1, r⟩ =
            p.cachedBitmap ⟨p.mCurFrame, -1, r⟩ := t12.1.1 _
      cases hq : p.cachedBitmap ⟨p.mCurFrame, -1, r⟩ with
      | some b =>
        simp only [cacheGet_fst, hn, Bool.false_eq_true, if_false, f2, c2, hq]
        refine asksFor_congr (asksFor_trans t12 t3) fun k => ?_
        simp [wants, niceKey, quickKey, hn, hq, hrun, c1]
      | none =>
        have t4 := asksFor_QueueRect
          (((p.cacheGet ⟨p.mCurFrame, 0, r⟩ true).2.QueueRect
            ⟨p.mCurFrame, 0, r⟩).cacheGet ⟨p.mCurFrame, -1, r⟩ true).2 ⟨p.mCurFrame, -1, r⟩
        have c3 : (((p.cacheGet ⟨p.mCurFrame, 0, r⟩ true).2.QueueRect
            ⟨p.mCurFrame, 0, r⟩).cacheGet ⟨p.mCurFrame, -1, r⟩ true).2.cachedBitmap
              ⟨p.mCurFrame, -1, r⟩ = none :=
          ((t3.1.1 _).trans c2).trans hq
        simp only [cacheGet_fst, hn, Bool.false_eq_true, if_false, f2, c2, hq]
        refine asksFor_congr (asksFor_trans (asksFor_trans t12 t3) t4) fun k => ?_
        simp [wants, niceKey, quickKey, hn, hq, hrun, c1, c3]
  · -- animation running: only the Quick tile is looked up
    have t1 := asksFor_cacheGet p ⟨p.mCurFrame, -1, r⟩ true
    cases hq : p.cachedBitmap ⟨p.mCurFrame, -1, r⟩ with
    | some b =>
      simp only [cacheGet_fst, hq, if_true]
      refine asksFor_congr t1 fun k => ?_
      simp [wants, niceKey, quickKey, hq, hrun]
    | none =>
      have t2 := asksFor_QueueRect (p.cacheGet ⟨p.mCurFrame, -1, r⟩ true).2 ⟨p.mCurFrame, -1, r⟩
      have c1 : (p.cacheGet ⟨p.mCurFrame, -1, r⟩ true).2.cachedBitmap ⟨p.mCurFrame, -1, r⟩ =
          none := (t1.1.1 _).trans hq
      simp only [cacheGet_fst, hq, if_true]
      refine asksFor_congr (asksFor_trans t1 t2) fun k => ?_
      simp [wants, niceKey, quickKey, hq, hrun, c1]

/-- The bitmap drawn by one pass of the loop body. -/
theorem OnPaintTile_draw (p : wxImagePanel) (r : wxRect) :
    (p.OnPaintTile r).2 = if p.animationRunning = true then p.quickDraw r else p.specDraw r := by
  unfold OnPaintTile
  cases hrun : p.animationRunning
  · have t1 := asksFor_cacheGet p ⟨p.mCurFrame, 0, r⟩ true
    cases hn : p.cachedBitmap ⟨p.mCurFrame, 0, r⟩ with
    | some b =>
      simp [cacheGet_fst, hn, specDraw, niceKey]
    | none =>
      have t2 := asksFor_QueueRect (p.cacheGet ⟨p.mCurFrame, 0, r⟩ true).2 ⟨p.mCurFrame, 0, r⟩
      have t12 := asksFor_trans t1 t2
      have f2 : ((p.cacheGet ⟨p.mCurFrame, 0, r⟩ true).2.QueueRect
          ⟨p.mCurFrame, 0, r⟩).mCurFrame = p.mCurFrame := t12.1.2.1
      have c2 : ((p.cacheGet ⟨p.mCurFrame, 0, r⟩ true).2.QueueRect
          ⟨p.mCurFrame, 0, r⟩).cachedBitmap ⟨p.mCurFrame, -1, r⟩ =
            p.cachedBitmap ⟨p.mCurFrame, -1, r⟩ := t12.1.1 _
      cases hq : p.cachedBitmap ⟨p.mCurFrame, -1, r⟩ with
      | some b =>
        simp [cacheGet_fst, hn, hq, specDraw, niceKey, quickKey, f2, c2]
      | none =>
        simp [cacheGet_fst, hn, hq, specDraw, niceKey, quickKey, f2, c2]
  · cases hq : p.cachedBitmap ⟨p.mCurFrame, -1, r⟩ with
    | some b => simp [cacheGet_fst, hq, quickDraw, quickKey]
    | none => simp [cacheGet_fst, hq, quickDraw, quickKey]

end wxImagePanel


namespace wxImagePanel

theorem specDraw_of_sameView {p q : wxImagePanel} (h : sameView p q) (r : wxRect) :
    q.specDraw r = p.specDraw r := by
  unfold specDraw niceKey quickKey
  rw [h.2.1, h.1, h.1]

theorem quickDraw_of_sameView {p q : wxImagePanel} (h : sameView p q) (r : wxRect) :
    q.quickDraw r = p.quickDraw r := by
  unfold quickDraw quickKey
  rw [h.2.1, h.1]

/-- A whole pass of the tile loop asks exactly for the keys wanted at one of its
rectangles. -/
theorem OnPaint_asksFor (p : wxImagePanel) (rects : List wxRect) :
    asksFor (fun k => ∃ r ∈ rects, p.wants r k) p (p.OnPaint rects).1 := by
  induction rects generalizing p with
  | nil =>
    refine ⟨sameView_refl p, fun k => ?_, fun k => ?_⟩ <;> simp [OnPaint]
  | cons r rest ih =>
    have h1 := OnPaintTile_asksFor p r
    have h2 := ih (p.OnPaintTile r).1
    have e : (p.OnPaint (r :: rest)).1 = ((p.OnPaintTile r).1.OnPaint rest).1 := by
      simp only [OnPaint]
      split <;> rfl
    rw [e]
    refine asksFor_congr (asksFor_trans h1 h2) fun k => ?_
    simp only [List.mem_cons, exists_eq_or_imp, wants_of_sameView h1.1]

/-- The draw calls of a whole pass, in order. -/
theorem OnPaint_draws (p : wxImagePanel) (rects : List wxRect) :
    (p.OnPaint rects).2 =
      rects.filterMap fun r => if p.animationRunning = true then p.quickDraw r else p.specDraw r := by
  induction rects generalizing p with
  | nil => rfl
  | cons r rest ih =>
    have h1 := (OnPaintTile_asksFor p r).1
    have d := OnPaintTile_draw p r
    have h2 := ih (p.OnPaintTile r).1
    have e : (fun r' => if (p.OnPaintTile r).1.animationRunning = true
          then (p.OnPaintTile r).1.quickDraw r' else (p.OnPaintTile r).1.specDraw r') =
        fun r' => if p.animationRunning = true then p.quickDraw r' else p.specDraw r' := by
      funext r'
      rw [h1.2.2, specDraw_of_sameView h1, quickDraw_of_sameView h1]
    rw [e] at h2
    simp only [OnPaint, List.filterMap_cons, ← d]
    cases hd : (p.OnPaintTile r).2 with
    | none => simpa using h2
    | some b => simpa using h2

end wxImagePanel


/-! ## Claims about `OnPaint` and `QueueRect` -/

/-- Claim C5 (as stated, refuted): while the animation timer is running the Nice tile
is not looked up. In `exampleAnimating` both tiles of `tile00` are cached, Nice
as bitmap 1 and Quick as bitmap 2, and the pass draws bitmap 2. -/
theorem C5_animation_draws_quick_over_nice :
    exampleAnimating.cachedBitmap (exampleAnimating.niceKey tile00) = some ⟨1⟩ ∧
    exampleAnimating.cachedBitmap (exampleAnimating.quickKey tile00) = some ⟨2⟩ ∧
    (exampleAnimating.OnPaint [tile00]).2 = [⟨⟨2⟩, ⟨0, 0⟩⟩] ∧
    (exampleAnimating.OnPaint [tile00]).2 ≠ [tile00].filterMap exampleAnimating.specDraw := by
  decide

/-- Claim C5 (amended): in a pass of the tile loop of `OnPaint` over the rectangles
`rects`, for every panel state: while the animation timer is not running the
draw calls are, rectangle by rectangle, the cached Nice tile if there is one,
else the cached Quick tile if there is one, else none; while the timer is
running they are the cached Quick tile if there is one, else none. -/
theorem C5_OnPaint_draws_nice_else_quick (p : wxImagePanel) (rects : List wxRect) :
    (p.animationRunning = false → (p.OnPaint rects).2 = rects.filterMap p.specDraw) ∧
    (p.animationRunning = true → (p.OnPaint rects).2 = rects.filterMap p.quickDraw) := by
  constructor
  · intro h
    rw [wxImagePanel.OnPaint_draws]
    simp [h]
  · intro h
    rw [wxImagePanel.OnPaint_draws]
    simp [h]

/-- Claim C5 (amended), instance: without animation the pass over `tile00` and
`tile10` draws the Nice tile of the first and the Quick tile of the second. -/
theorem C5_OnPaint_draws_nice_else_quick_witness :
    exampleStill.animationRunning = false ∧
    (exampleStill.OnPaint [tile00, tile10]).2 = [⟨⟨1⟩, ⟨0, 0⟩⟩, ⟨⟨3⟩, ⟨256, 0⟩⟩] :=
  ⟨rfl, ((C5_OnPaint_draws_nice_else_quick exampleStill [tile00, tile10]).1 rfl).trans
    (by decide)⟩

namespace wxImagePanel

/-- A key that is cached or pending stays so through further `QueueRect` calls,
none of which hands it to the factory. -/
theorem foldl_QueueRect_keeps (K : ExtRect) (ks : List ExtRect) (p : wxImagePanel)
    (h : p.cachedBitmap K ≠ none ∨ K ∈ p.mQueuedRects) :
    ((ks.foldl QueueRect p).cachedBitmap K ≠ none ∨ K ∈ (ks.foldl QueueRect p).mQueuedRects) ∧
    (ks.foldl QueueRect p).mImageFactory.jobs.count K = p.mImageFactory.jobs.count K := by
  induction ks generalizing p with
  | nil => exact ⟨h, rfl⟩
  | cons k ks ih =>
    have s := asksFor_QueueRect p k
    have h' : (p.QueueRect k).cachedBitmap K ≠ none ∨ K ∈ (p.QueueRect k).mQueuedRects := by
      rcases h with h | h
      · left; rw [s.1.1]; exact h
      · right; exact (s.2.1 K).mpr (Or.inl h)
    have c : (p.QueueRect k).mImageFactory.jobs.count K = p.mImageFactory.jobs.count K := by
      apply (s.2.2 K).2
      rintro ⟨h1, rfl, h2⟩
      rcases h with h | h
      · exact h h2
      · exact h1 h
    obtain ⟨i1, i2⟩ := ih (p.QueueRect k) h'
    exact ⟨i1, i2.trans c⟩

theorem QueueRect_noop (p : wxImagePanel) (K : ExtRect)
    (h : p.cachedBitmap K ≠ none ∨ K ∈ p.mQueuedRects) : p.QueueRect K = p := by
  unfold QueueRect
  simp only [cacheGet_false_snd, cacheGet_fst]
  cases hc : p.cachedBitmap K with
  | some b => rfl
  | none =>
    rcases h with h | h
    · exact absurd hc h
    · simp only [if_pos h]

theorem QueueRect_settles (p : wxImagePanel) (K : ExtRect) :
    (p.QueueRect K).cachedBitmap K ≠ none ∨ K ∈ (p.QueueRect K).mQueuedRects := by
  have s := asksFor_QueueRect p K
  cases hc : p.cachedBitmap K with
  | some b => left; rw [s.1.1, hc]; simp
  | none => right; exact (s.2.1 K).mpr (Or.inr ⟨rfl, hc⟩)

end wxImagePanel

/-- Claim C6: request deduplication. After `QueueRect(K)`, any further `QueueRect`
calls `between` and a second `QueueRect(K)`, the second call changes nothing
(in particular neither the pending set nor the factory queue), and in total
`K` was handed to the factory exactly once if it was neither cached nor pending
before the first call, and not at all otherwise. -/
theorem C6_QueueRect_dedup (p : wxImagePanel) (K : ExtRect) (between : List ExtRect) :
    ((between.foldl wxImagePanel.QueueRect (p.QueueRect K)).QueueRect K =
      between.foldl wxImagePanel.QueueRect (p.QueueRect K)) ∧
    (p.cachedBitmap K = none ∧ K ∉ p.mQueuedRects →
      ((between.foldl wxImagePanel.QueueRect (p.QueueRect K)).QueueRect K).mImageFactory.jobs.count K
        = p.mImageFactory.jobs.count K + 1) ∧
    (¬ (p.cachedBitmap K = none ∧ K ∉ p.mQueuedRects) →
      ((between.foldl wxImagePanel.QueueRect (p.QueueRect K)).QueueRect K).mImageFactory.jobs.count K
        = p.mImageFactory.jobs.count K) := by
  obtain ⟨k1, k2⟩ := wxImagePanel.foldl_QueueRect_keeps K between (p.QueueRect K)
    (wxImagePanel.QueueRect_settles p K)
  have e := wxImagePanel.QueueRect_noop _ K k1
  have s := (wxImagePanel.asksFor_QueueRect p K).2.2 K
  refine ⟨e, ?_, ?_⟩
  · rintro ⟨h1, h2⟩
    rw [e, k2]
    exact s.1 ⟨h2, rfl, h1⟩
  · intro h
    rw [e, k2]
    apply s.2
    rintro ⟨h1, _, h2⟩
    exact h ⟨h2, h1⟩

/-- Claim C6, instance: in `exampleStill` the Nice key of `tile10` is neither cached
nor pending; two calls with a call for another key in between hand it to the
factory once. -/
theorem C6_QueueRect_dedup_witness :
    (exampleStill.cachedBitmap ⟨0, 0, tile10⟩ = none ∧
      (⟨0, 0, tile10⟩ : ExtRect) ∉ exampleStill.mQueuedRects) ∧
    (([(⟨1, 0, tile00⟩ : ExtRect)].foldl wxImagePanel.QueueRect
        (exampleStill.QueueRect ⟨0, 0, tile10⟩)).QueueRect
          ⟨0, 0, tile10⟩).mImageFactory.jobs.count ⟨0, 0, tile10⟩ =
      exampleStill.mImageFactory.jobs.count ⟨0, 0, tile10⟩ + 1 :=
  ⟨by decide,
    (C6_QueueRect_dedup exampleStill ⟨0, 0, tile10⟩ [⟨1, 0, tile00⟩]).2.1 (by decide)⟩

/-- Claim C7: quality fallback. In a pass of the tile loop while no animation is
running, for a rectangle `r` of the pass whose Quick tile is cached and whose
Nice tile is not: the Quick tile is drawn at `r`, the Quick key is neither
handed to the factory nor made pending, the Nice key is handed to the factory once if it was not pending
and not at all if it was, it is pending after the pass, and a further pass over
any rectangles `again` hands it to the factory no more. -/
theorem C7_quality_fallback (p : wxImagePanel) (rects again : List wxRect) (r : wxRect)
    (quick : wxBitmap) (hrun : p.animationRunning = false) (hr : r ∈ rects)
    (hq : p.cachedBitmap (p.quickKey r) = some quick)
    (hn : p.cachedBitmap (p.niceKey r) = none) :
    (⟨quick, r.GetPosition⟩ : DrawCall) ∈ (p.OnPaint rects).2 ∧
    (p.OnPaint rects).1.mImageFactory.jobs.count (p.quickKey r) =
      p.mImageFactory.jobs.count (p.quickKey r) ∧
    (p.quickKey r ∈ (p.OnPaint rects).1.mQueuedRects ↔ p.quickKey r ∈ p.mQueuedRects) ∧
    (p.niceKey r ∉ p.mQueuedRects →
      (p.OnPaint rects).1.mImageFactory.jobs.count (p.niceKey r) =
        p.mImageFactory.jobs.count (p.niceKey r) + 1) ∧
    (p.niceKey r ∈ p.mQueuedRects →
      (p.OnPaint rects).1.mImageFactory.jobs.count (p.niceKey r) =
        p.mImageFactory.jobs.count (p.niceKey r)) ∧
    p.niceKey r ∈ (p.OnPaint rects).1.mQueuedRects ∧
    ((p.OnPaint rects).1.OnPaint again).1.mImageFactory.jobs.count (p.niceKey r) =
      (p.OnPaint rects).1.mImageFactory.jobs.count (p.niceKey r) := by
  have s := wxImagePanel.OnPaint_asksFor p rects
  have s2 := wxImagePanel.OnPaint_asksFor (p.OnPaint rects).1 again
  have wn : p.wants r (p.niceKey r) := Or.inl ⟨rfl, hrun, hn⟩
  have hpend : p.niceKey r ∈ (p.OnPaint rects).1.mQueuedRects :=
    (s.2.1 _).mpr (Or.inr ⟨r, hr, wn⟩)
  have hnw : ¬ ∃ r' ∈ rects, p.wants r' (p.quickKey r) := by
    rintro ⟨r', _, h | h⟩
    · exact wxImagePanel.niceKey_ne_quickKey p p r' r h.1.symm
    · have e : r = r' := by
        have := congrArg ExtRect.rect h.1
        simpa [wxImagePanel.quickKey] using this
      subst e
      rw [hq] at h
      simp at h
  refine ⟨?_, ?_, ?_, ?_, ?_, hpend, ?_⟩
  · rw [wxImagePanel.OnPaint_draws, List.mem_filterMap]
    refine ⟨r, hr, ?_⟩
    simp [hrun, wxImagePanel.specDraw, hn, hq]
  · exact (s.2.2 _).2 (fun c => hnw c.2)
  · rw [s.2.1]
    exact ⟨fun h => h.elim id (fun c => absurd c hnw), Or.inl⟩
  · intro h
    exact (s.2.2 _).1 ⟨h, r, hr, wn⟩
  · intro h
    exact (s.2.2 _).2 (fun c => c.1 h)
  · exact (s2.2.2 _).2 (fun c => c.1 hpend)

/-- Claim C7, instance: in `exampleStill` the Quick tile of `tile10` is cached
(bitmap 3) and its Nice tile is not; the pass draws bitmap 3 at `(256,0)`. -/
theorem C7_quality_fallback_witness :
    (exampleStill.animationRunning = false ∧ tile10 ∈ [tile00, tile10] ∧
      exampleStill.cachedBitmap (exampleStill.quickKey tile10) = some ⟨3⟩ ∧
      exampleStill.cachedBitmap (exampleStill.niceKey tile10) = none) ∧
    (⟨⟨3⟩, ⟨256, 0⟩⟩ : DrawCall) ∈ (exampleStill.OnPaint [tile00, tile10]).2 :=
  ⟨by decide,
    (C7_quality_fallback exampleStill [tile00, tile10] [tile00, tile10] tile10 ⟨3⟩
      rfl (by decide) (by decide) (by decide)).1⟩


/-! ## Claims about `SetScale` -/

end ImagePanel
